import Mathlib

/-!
Verification of the frame-transform core of the `pixelate-all` repository
(`src/app/processing.py`) against its natural-language specification.

The Python functions are shallowly embedded as Lean definitions:

* `Img` models a numpy `H×W×C` `uint8` array (`pix` gives the channel list of
  the pixel at a row/column; machine bytes are modelled as `Nat`).
* `resizeNearest` / `resizeLinear` model `cv2.resize` with
  `INTER_NEAREST` / `INTER_LINEAR` (OpenCV half-pixel-center convention,
  exact rational interpolation followed by round-and-saturate).
* `Clusterer` abstracts `cv2.kmeans`; theorems that depend on the clustering
  take its documented interface properties as hypotheses, and `modelKMeans`
  is a concrete executable instance used to evaluate witnesses.
* `pixelate_image`, `pixelate_gif_file`, `pixelate_video_file` follow the
  Python sources line by line; external I/O (PIL decoding, ffmpeg probing,
  the encoder pipe) is represented by explicit data (`GifFrame`,
  `ProbeStream`, `VideoOps`).
-/

namespace PixelateAll

/-- A pixel buffer: models a numpy array of shape `h × w × ch` of unsigned
bytes. `pix y x` is the list of channel values of the pixel at row `y`,
column `x`. -/
structure Img where
  h : Nat
  w : Nat
  ch : Nat
  pix : Nat → Nat → List Nat

/-- A zero-area 3-channel buffer. -/
def emptyImg : Img := ⟨0, 0, 3, fun _ _ => []⟩

/-- Models `cv2.resize(src, (dw, dh), interpolation=cv2.INTER_NEAREST)`:
`dst(y, x) = src(min(⌊y·sh/dh⌋, sh−1), min(⌊x·sw/dw⌋, sw−1))`. -/
def resizeNearest (src : Img) (dw dh : Nat) : Img :=
  { h := dh, w := dw, ch := src.ch,
    pix := fun y x =>
      src.pix (min (y * src.h / dh) (src.h - 1)) (min (x * src.w / dw) (src.w - 1)) }

/-- Source cell and interpolation fraction for one axis of
`cv2.INTER_LINEAR`: destination index `i` of `d` samples maps to source
coordinate `(i + ½)·s/d − ½ = ((2i+1)s − d)/(2d)` over `s` samples, clamped
to the valid range (border replication collapses the fraction to `0` at the
edges). Returns `(cell, fraction numerator, fraction denominator)`; the
fraction is kept as an exact pair of naturals so the interpolation below is
exact rational arithmetic. -/
def linCoord (d s i : Nat) : Nat × Nat × Nat :=
  if (2 * i + 1) * s < d then (0, 0, 1)
  else
    let num := (2 * i + 1) * s - d
    let den := 2 * d
    let s0 := num / den
    if s - 1 ≤ s0 then (s - 1, 0, 1)
    else (s0, num - s0 * den, den)

/-- Models `cv2.resize(src, (dw, dh), interpolation=cv2.INTER_LINEAR)`:
bilinear interpolation with half-pixel centers, evaluated exactly and
rounded to the nearest byte per channel (`saturate_cast` after rounding;
for a channel value `V/D` the rounded result is `⌊(2V + D)/(2D)⌋`). -/
def resizeLinear (src : Img) (dw dh : Nat) : Img :=
  { h := dh, w := dw, ch := src.ch,
    pix := fun y x =>
      match linCoord dh src.h y, linCoord dw src.w x with
      | (sy, tyn, tyd), (sx, txn, txd) =>
        let sy1 := min (sy + 1) (src.h - 1)
        let sx1 := min (sx + 1) (src.w - 1)
        let top := List.zipWith (fun a b => (txd - txn) * a + txn * b)
          (src.pix sy sx) (src.pix sy sx1)
        let bot := List.zipWith (fun a b => (txd - txn) * a + txn * b)
          (src.pix sy1 sx) (src.pix sy1 sx1)
        (List.zipWith (fun a b => (tyd - tyn) * a + tyn * b) top bot).map
          (fun v => min 255 ((2 * v + tyd * txd) / (2 * (tyd * txd)))) }

/-- Abstract interface of `cv2.kmeans` as used at `processing.py:33`:
given the sample list and a cluster count `k` it returns per-sample labels
and the list of cluster centers. -/
structure Clusterer where
  run : List (List Nat) → Nat → List Nat × List (List Nat)

/-- Squared Euclidean distance between two pixels (channel lists). -/
def sqDist (a b : List Nat) : Int :=
  ((a.zip b).map (fun p => ((p.1 : Int) - (p.2 : Int)) ^ 2)).sum

/-- Index of the nearest center to `px` (first minimum). -/
def nearestIdx (cs : List (List Nat)) (px : List Nat) : Nat :=
  match (cs.enum).argmin (fun p => sqDist p.2 px) with
  | some p => p.1
  | none => 0

/-- Executable model of `cv2.kmeans` (the spec allows "k-means or
equivalent" clustering): the centers are the first `k` distinct samples and
every sample is labelled with its nearest center, so equal samples always
receive equal labels and all labels lie below the center count. Used to
evaluate witnesses on concrete inputs. -/
def modelKMeans : Clusterer :=
  ⟨fun pixels k =>
    let centers := pixels.dedup.take k
    (pixels.map (nearestIdx centers), centers)⟩

/-- Row-major list of all pixels of a buffer (`reshape((-1, 3))` at
`processing.py:25`). -/
def imgPixels (img : Img) : List (List Nat) :=
  (List.range img.h).flatMap (fun y => (List.range img.w).map (fun x => img.pix y x))

/-- Number of distinct pixel colors of a buffer. -/
def distinctColors (img : Img) : Nat := (imgPixels img).toFinset.card

/-- The `bgr` color plane of `processing.py:9-15`: the first three channels
when an alpha channel is present, the whole buffer otherwise. -/
def colorPlane (image : Img) : Img :=
  if image.ch = 4 then
    { h := image.h, w := image.w, ch := 3, pix := fun y x => (image.pix y x).take 3 }
  else image

/-- Lines 21-23 of `processing.py`: the smoothed downsampled color plane,
`cv2.resize(bgr, (max 1 (w//p), max 1 (h//p)), INTER_LINEAR)`. -/
def downsampled (image : Img) (pixel_size : Nat) : Img :=
  let small_height := max 1 (image.h / pixel_size)
  let small_width := max 1 (image.w / pixel_size)
  resizeLinear (colorPlane image) small_width small_height

/-- Line 27 of `processing.py`: `effective_n_colors = min(n_colors, num_pixels)`. -/
def effectiveNColors (n_colors : Int) (num_pixels : Nat) : Int :=
  min n_colors (num_pixels : Int)

/-- Lines 25-36 of `processing.py`: the quantized downsampled color plane.
When the effective cluster count is below 1 clustering is skipped and the
smoothed colors are kept; otherwise every downsampled pixel is replaced by
its cluster center (`centers[labels]`, reshaped back to the small buffer). -/
def quantizedSmall (cl : Clusterer) (image : Img) (pixel_size : Nat) (n_colors : Int) : Img :=
  let small_bgr := downsampled image pixel_size
  let pixels := imgPixels small_bgr
  let num_pixels := pixels.length
  if effectiveNColors n_colors num_pixels < 1 then small_bgr
  else
    let k := (effectiveNColors n_colors num_pixels).toNat
    let labels := (cl.run pixels k).1
    let centers := (cl.run pixels k).2
    let quantized_pixels := labels.map (fun l => centers.getD l [])
    { small_bgr with pix := fun y x => quantized_pixels.getD (y * small_bgr.w + x) [] }

/-- Embedding of `pixelate_image` (`processing.py:7-49`). `n_colors` is an
`Int` because the Python parameter is an arbitrary integer; `pixel_size`
and `upscale_factor` are the (positive, per the spec's parameter domain)
sizes. -/
def pixelate_image (cl : Clusterer) (image : Img) (pixel_size : Nat)
    (n_colors : Int) (upscale_factor : Nat) : Img :=
  let height := image.h
  let width := image.w
  if height = 0 ∨ width = 0 then image
  else
    let quantized_small_bgr := quantizedSmall cl image pixel_size n_colors
    let final_height := height * upscale_factor
    let final_width := width * upscale_factor
    let pixelated_bgr := resizeNearest quantized_small_bgr final_width final_height
    if image.ch = 4 then
      let alphaPlane : Img :=
        { h := height, w := width, ch := 1, pix := fun y x => (image.pix y x).drop 3 }
      let small_alpha :=
        resizeLinear alphaPlane (max 1 (width / pixel_size)) (max 1 (height / pixel_size))
      let pixelated_alpha := resizeNearest small_alpha final_width final_height
      { h := final_height, w := final_width, ch := 4,
        pix := fun y x => pixelated_bgr.pix y x ++ pixelated_alpha.pix y x }
    else pixelated_bgr

/-! ### Basic structural lemmas -/

theorem resizeNearest_pix (src : Img) (dw dh y x : Nat) :
    (resizeNearest src dw dh).pix y x =
      src.pix (min (y * src.h / dh) (src.h - 1)) (min (x * src.w / dw) (src.w - 1)) := rfl

theorem colorPlane_h (image : Img) : (colorPlane image).h = image.h := by
  unfold colorPlane; split <;> rfl

theorem colorPlane_w (image : Img) : (colorPlane image).w = image.w := by
  unfold colorPlane; split <;> rfl

theorem downsampled_h (image : Img) (p : Nat) :
    (downsampled image p).h = max 1 (image.h / p) := rfl

theorem downsampled_w (image : Img) (p : Nat) :
    (downsampled image p).w = max 1 (image.w / p) := rfl

theorem quantizedSmall_h (cl : Clusterer) (image : Img) (p : Nat) (n : Int) :
    (quantizedSmall cl image p n).h = max 1 (image.h / p) := by
  by_cases hk : effectiveNColors n (imgPixels (downsampled image p)).length < 1 <;>
    simp [quantizedSmall, hk, downsampled_h]

theorem quantizedSmall_w (cl : Clusterer) (image : Img) (p : Nat) (n : Int) :
    (quantizedSmall cl image p n).w = max 1 (image.w / p) := by
  by_cases hk : effectiveNColors n (imgPixels (downsampled image p)).length < 1 <;>
    simp [quantizedSmall, hk, downsampled_w]

theorem resizeNearest_ch (src : Img) (dw dh : Nat) : (resizeNearest src dw dh).ch = src.ch := rfl

theorem colorPlane_ch (image : Img) :
    (colorPlane image).ch = if image.ch = 4 then 3 else image.ch := by
  unfold colorPlane; split <;> simp_all

theorem downsampled_ch (image : Img) (p : Nat) :
    (downsampled image p).ch = (colorPlane image).ch := rfl

theorem quantizedSmall_ch (cl : Clusterer) (image : Img) (p : Nat) (n : Int) :
    (quantizedSmall cl image p n).ch = (downsampled image p).ch := by
  by_cases hk : effectiveNColors n (imgPixels (downsampled image p)).length < 1 <;>
    simp [quantizedSmall, hk]

/-- The channel count of `pixelate_image` always equals the input's channel
count: the zero-area branch returns the input, the alpha branch remerges
four channels, and the color-only branch keeps the color plane's channels. -/
theorem pixelate_image_ch (cl : Clusterer) (image : Img) (p : Nat) (n : Int) (u : Nat) :
    (pixelate_image cl image p n u).ch = image.ch := by
  by_cases h0 : image.h = 0 ∨ image.w = 0
  · simp [pixelate_image, h0]
  · by_cases hch : image.ch = 4
    · simp [pixelate_image, h0, hch]
    · simp [pixelate_image, h0, hch, resizeNearest_ch, quantizedSmall_ch, downsampled_ch,
        colorPlane_ch]

/-! ### C1: output dimensions -/

/-- C1: for every input buffer with positive width and height and every
`upscale_factor ≥ 1` (and a positive `pixel_size`, the spec's parameter
domain), the buffer returned by `pixelate_image` has height
`input height × upscale_factor` and width `input width × upscale_factor`,
exactly. -/
theorem output_dims_scale (cl : Clusterer) (image : Img) (p : Nat) (n : Int) (u : Nat)
    (hh : 0 < image.h) (hw : 0 < image.w) (hp : 0 < p) (hu : 1 ≤ u) :
    (pixelate_image cl image p n u).h = image.h * u ∧
      (pixelate_image cl image p n u).w = image.w * u := by
  unfold pixelate_image
  rw [if_neg (by omega)]
  split <;> exact ⟨rfl, rfl⟩

/-- Witness for C1 at a concrete 2×3 buffer with `pixel_size = 2`,
`upscale_factor = 3`. -/
theorem output_dims_scale_witness :
    (pixelate_image modelKMeans ⟨2, 3, 3, fun _ _ => [7, 7, 7]⟩ 2 16 3).h = 2 * 3 ∧
      (pixelate_image modelKMeans ⟨2, 3, 3, fun _ _ => [7, 7, 7]⟩ 2 16 3).w = 3 * 3 :=
  output_dims_scale modelKMeans ⟨2, 3, 3, fun _ _ => [7, 7, 7]⟩ 2 16 3
    (by decide) (by decide) (by decide) (by decide)

/-! ### C8: zero-area identity -/

/-- C8: for every zero-area input buffer (height = 0 or width = 0),
`pixelate_image` returns the input buffer unmodified, for every choice of
`pixel_size`, `n_colors` and `upscale_factor`. -/
theorem zero_area_identity (cl : Clusterer) (image : Img) (p : Nat) (n : Int) (u : Nat)
    (h0 : image.h = 0 ∨ image.w = 0) :
    pixelate_image cl image p n u = image := by
  unfold pixelate_image
  exact if_pos h0

/-- Witness for C8: the empty buffer is returned unchanged even for
`pixel_size = 0`, negative `n_colors` and `upscale_factor = 5`. -/
theorem zero_area_identity_witness :
    pixelate_image modelKMeans emptyImg 0 (-3) 5 = emptyImg :=
  zero_area_identity modelKMeans emptyImg 0 (-3) 5 (Or.inl rfl)

/-! ### C4: alpha channel preservation -/

/-- C4: for every input buffer with 3 or 4 channels (and positive
`pixel_size`), the output of `pixelate_image` has an alpha channel iff the
input has one: 4 output channels iff 4 input channels, and 3 output
channels iff 3 input channels. -/
theorem alpha_preserved_iff (cl : Clusterer) (image : Img) (p : Nat) (n : Int) (u : Nat)
    (hch : image.ch = 3 ∨ image.ch = 4) (hp : 0 < p) :
    ((pixelate_image cl image p n u).ch = 4 ↔ image.ch = 4) ∧
      ((pixelate_image cl image p n u).ch = 3 ↔ image.ch = 3) := by
  rw [pixelate_image_ch]
  exact ⟨Iff.rfl, Iff.rfl⟩

/-- Witness for C4 at a 2×2 four-channel buffer. -/
theorem alpha_preserved_iff_witness :
    ((pixelate_image modelKMeans ⟨2, 2, 4, fun _ _ => [1, 2, 3, 200]⟩ 2 16 1).ch = 4 ↔
      (⟨2, 2, 4, fun _ _ => [1, 2, 3, 200]⟩ : Img).ch = 4) ∧
    ((pixelate_image modelKMeans ⟨2, 2, 4, fun _ _ => [1, 2, 3, 200]⟩ 2 16 1).ch = 3 ↔
      (⟨2, 2, 4, fun _ _ => [1, 2, 3, 200]⟩ : Img).ch = 3) :=
  alpha_preserved_iff modelKMeans ⟨2, 2, 4, fun _ _ => [1, 2, 3, 200]⟩ 2 16 1
    (Or.inr rfl) (by decide)

/-! ### C2: uniform blocks -/

/-- The nearest-neighbor source index is constant on aligned `p`-blocks of
the destination when the destination size is `p · sh · u`: destination rows
with equal `Y / p` read the same source row. -/
theorem nnIdx_block_const (p u sh Y1 Y2 : Nat) (hq : Y1 / p = Y2 / p) :
    min (Y1 * sh / (p * sh * u)) (sh - 1) = min (Y2 * sh / (p * sh * u)) (sh - 1) := by
  rcases Nat.eq_zero_or_pos sh with hsh | hsh
  · subst hsh; simp
  · have e : ∀ Y : Nat, Y * sh / (p * sh * u) = Y / p / u := by
      intro Y
      rw [show p * sh * u = p * u * sh by ring, Nat.mul_div_mul_right _ _ hsh,
        Nat.div_div_eq_div_mul]
    rw [e Y1, e Y2, hq]

/-- A 5-row, 2-column, 3-channel buffer: two black rows, one mid-gray row,
two light rows. Its 2-pixel downsample (`pixel_size = 2`) is exactly
`[[0,0,0]], [[100,100,100]]` (each destination row interpolates two equal
source rows), independent of rounding. -/
def exStripes : Img :=
  ⟨5, 2, 3, fun y _ =>
    if y ≤ 1 then [0, 0, 0] else if y = 2 then [50, 50, 50] else [100, 100, 100]⟩

/-- C2 counterexample: quantizing `exStripes` with `pixel_size = 2`
(`n_colors = 0`, so clustering is skipped and the smoothed downsampled
colors are kept, and `upscale_factor = 1`) yields an output whose pixels
`(2,0)` and `(3,0)` lie in the same 2×2 block — rows 2 and 3 both have
block row `2/2 = 3/2 = 1`, and that block is complete, not a trailing edge
block, since `(1+1)·2 ≤ 5` — yet the two pixels have different colors: the
nearest-neighbor upscale from the 2-row downsample to 5 rows places its
block boundary between rows 2 and 3 (stride 5/2), not on the 2-aligned
grid. -/
theorem uniform_blocks_counterexample :
    2 / 2 = 3 / 2 ∧ (1 + 1) * 2 ≤ exStripes.h ∧
      (pixelate_image modelKMeans exStripes 2 0 1).pix 2 0 ≠
        (pixelate_image modelKMeans exStripes 2 0 1).pix 3 0 := by decide

/-- C2 (amended): for a buffer quantized by `pixelate_image` with
`pixel_size = p`, if `p` divides both the input height and the input width
(so no partial trailing blocks arise), then every aligned `p × p` block of
the output is spatially uniform: any two output positions with the same
block row `Y / p` and the same block column `X / p` hold the same pixel.
When `p` does not divide a dimension, interior `p × p` blocks may straddle
a nearest-neighbor cell boundary and need not be uniform (see the
counterexample). -/
theorem uniform_blocks_divisible (cl : Clusterer) (image : Img) (p : Nat) (n : Int) (u : Nat)
    (hh : 0 < image.h) (hw : 0 < image.w) (hp : 0 < p) (hu : 0 < u)
    (hdh : p ∣ image.h) (hdw : p ∣ image.w) (Y1 X1 Y2 X2 : Nat)
    (hY : Y1 / p = Y2 / p) (hX : X1 / p = X2 / p) :
    (pixelate_image cl image p n u).pix Y1 X1 = (pixelate_image cl image p n u).pix Y2 X2 := by
  obtain ⟨mh, hmh⟩ := hdh
  obtain ⟨mw, hmw⟩ := hdw
  have hmh0 : 0 < mh := by
    rcases Nat.eq_zero_or_pos mh with h | h
    · rw [h, Nat.mul_zero] at hmh; omega
    · exact h
  have hmw0 : 0 < mw := by
    rcases Nat.eq_zero_or_pos mw with h | h
    · rw [h, Nat.mul_zero] at hmw; omega
    · exact h
  have hsh : max 1 (image.h / p) = mh := by
    rw [hmh, Nat.mul_div_cancel_left _ hp]; omega
  have hsw : max 1 (image.w / p) = mw := by
    rw [hmw, Nat.mul_div_cancel_left _ hp]; omega
  have hQh : (quantizedSmall cl image p n).h = mh := by rw [quantizedSmall_h, hsh]
  have hQw : (quantizedSmall cl image p n).w = mw := by rw [quantizedSmall_w, hsw]
  have hyIdx : ∀ src : Img, src.h = mh →
      min (Y1 * src.h / (image.h * u)) (src.h - 1) =
        min (Y2 * src.h / (image.h * u)) (src.h - 1) := by
    intro src hsrc
    rw [hsrc, hmh]
    exact nnIdx_block_const p u mh Y1 Y2 hY
  have hxIdx : ∀ src : Img, src.w = mw →
      min (X1 * src.w / (image.w * u)) (src.w - 1) =
        min (X2 * src.w / (image.w * u)) (src.w - 1) := by
    intro src hsrc
    rw [hsrc, hmw]
    exact nnIdx_block_const p u mw X1 X2 hX
  have hnn : ∀ src : Img, src.h = mh → src.w = mw →
      (resizeNearest src (image.w * u) (image.h * u)).pix Y1 X1 =
        (resizeNearest src (image.w * u) (image.h * u)).pix Y2 X2 := by
    intro src hsrch hsrcw
    rw [resizeNearest_pix, resizeNearest_pix, hyIdx src hsrch, hxIdx src hsrcw]
  have h0 : ¬(image.h = 0 ∨ image.w = 0) := by omega
  have hA := hnn
      (resizeLinear
        { h := image.h, w := image.w, ch := 1,
          pix := fun y x => (image.pix y x).drop 3 }
        (max 1 (image.w / p)) (max 1 (image.h / p)))
      hsh hsw
  by_cases hch : image.ch = 4
  · simp only [pixelate_image, h0, hch, if_true, if_false, ite_true, ite_false,
      eq_self_iff_true, not_false_iff]
    rw [hnn _ hQh hQw, hA]
  · simp only [pixelate_image, h0, hch, if_true, if_false, ite_true, ite_false,
      eq_self_iff_true, not_false_iff]
    exact hnn _ hQh hQw

/-- A 4×4 checkerboard-ish 3-channel buffer used to witness the amended C2. -/
def exBoard : Img :=
  ⟨4, 4, 3, fun y x => if (y + x) % 2 = 0 then [0, 0, 0] else [255, 255, 255]⟩

/-- Witness for the amended C2: with `pixel_size = 2` dividing both
dimensions of the 4×4 buffer and `upscale_factor = 1`, positions (0,0) and
(1,1) lie in the same 2×2 block and hold the same pixel. -/
theorem uniform_blocks_divisible_witness :
    (pixelate_image modelKMeans exBoard 2 16 1).pix 0 0 =
      (pixelate_image modelKMeans exBoard 2 16 1).pix 1 1 :=
  uniform_blocks_divisible modelKMeans exBoard 2 16 1 (by decide) (by decide) (by decide)
    (by decide) (by decide) (by decide) 0 0 1 1 (by decide) (by decide)

/-! ### C3: distinct color bound -/

theorem imgPixels_length (img : Img) : (imgPixels img).length = img.h * img.w := by
  unfold imgPixels
  rw [List.length_flatMap]
  have hc : ((List.range img.h).map
        (List.length ∘ fun y => (List.range img.w).map (fun x => img.pix y x)))
      = (List.range img.h).map (fun _ => img.w) := by
    apply List.map_congr_left
    intro y _
    simp
  rw [hc, List.map_const', List.sum_replicate, smul_eq_mul, List.length_range]

theorem imgPixels_mem (img : Img) (a : List Nat) :
    a ∈ imgPixels img ↔ ∃ y < img.h, ∃ x < img.w, a = img.pix y x := by
  simp [imgPixels, eq_comm]

/-- C3: for every frame processed by `pixelate_image` (positive area,
`pixel_size ≥ 1`, `n_colors ≥ 1` per the spec's parameter domain), the
number of distinct colors of the quantized pre-upscale buffer is at most
`min n_colors (number of distinct downsampled pixels)`. The clustering is
abstract; the hypotheses state the documented `cv2.kmeans` interface: the
returned labels are a per-sample function `f` of the sample (equal samples
receive equal labels) and every label is below the requested cluster
count. -/
theorem distinct_colors_bound (cl : Clusterer) (image : Img) (p : Nat) (n : Int)
    (f : List Nat → Nat) (hh : 0 < image.h) (hw : 0 < image.w) (hp : 0 < p) (hn : 1 ≤ n)
    (hlab : (cl.run (imgPixels (downsampled image p))
        ((effectiveNColors n (imgPixels (downsampled image p)).length).toNat)).1
      = (imgPixels (downsampled image p)).map f)
    (hbnd : ∀ px ∈ imgPixels (downsampled image p),
        f px < (effectiveNColors n (imgPixels (downsampled image p)).length).toNat) :
    (distinctColors (quantizedSmall cl image p n) : Int) ≤
      min n (distinctColors (downsampled image p) : Int) := by
  have hnum1 : 1 ≤ (imgPixels (downsampled image p)).length := by
    rw [imgPixels_length, downsampled_h, downsampled_w]
    exact Nat.one_le_iff_ne_zero.mpr (by positivity)
  have heff : (1 : Int) ≤ effectiveNColors n (imgPixels (downsampled image p)).length :=
    le_min hn (by exact_mod_cast hnum1)
  have hcond : ¬ effectiveNColors n (imgPixels (downsampled image p)).length < 1 :=
    not_lt.mpr heff
  have hq : quantizedSmall cl image p n =
      { h := (downsampled image p).h, w := (downsampled image p).w,
        ch := (downsampled image p).ch,
        pix := fun y x =>
          ((imgPixels (downsampled image p)).map
            (fun px => ((cl.run (imgPixels (downsampled image p))
              ((effectiveNColors n (imgPixels (downsampled image p)).length).toNat)).2).getD
                (f px) [])).getD
            (y * (downsampled image p).w + x) [] } := by
    simp only [quantizedSmall]
    rw [if_neg hcond, hlab, List.map_map]
    rfl
  set K := (effectiveNColors n (imgPixels (downsampled image p)).length).toNat with hK
  set C := (cl.run (imgPixels (downsampled image p)) K).2 with hC
  set g : Nat → List Nat := fun l => C.getD l [] with hg
  have hkn : (K : Int) ≤ n := by
    rw [hK, Int.toNat_of_nonneg (by omega)]
    exact min_le_left _ _
  -- every pixel of the quantized small buffer is `g (f px)` for a downsampled pixel `px`
  have hsub : ∀ a ∈ imgPixels (quantizedSmall cl image p n),
      ∃ px ∈ imgPixels (downsampled image p), a = g (f px) := by
    intro a ha
    rw [hq, imgPixels_mem] at ha
    obtain ⟨y, hy, x, hx, hax⟩ := ha
    simp only at hax hy hx
    have hyx : y * (downsampled image p).w + x <
        ((imgPixels (downsampled image p)).map (fun px => g (f px))).length := by
      rw [List.length_map, imgPixels_length]
      calc y * (downsampled image p).w + x
          < y * (downsampled image p).w + (downsampled image p).w := by omega
        _ = (y + 1) * (downsampled image p).w := by ring
        _ ≤ (downsampled image p).h * (downsampled image p).w :=
            Nat.mul_le_mul_right _ (by omega)
    rw [List.getD_eq_getElem _ _ hyx] at hax
    have hmem : ((imgPixels (downsampled image p)).map (fun px => g (f px)))[y *
        (downsampled image p).w + x] ∈
        (imgPixels (downsampled image p)).map (fun px => g (f px)) := List.getElem_mem _
    rw [← hax] at hmem
    rw [List.mem_map] at hmem
    obtain ⟨px, hpx, hpxeq⟩ := hmem
    exact ⟨px, hpx, hpxeq.symm⟩
  have hcard1 : (imgPixels (quantizedSmall cl image p n)).toFinset.card ≤ K := by
    have hss : (imgPixels (quantizedSmall cl image p n)).toFinset ⊆
        (Finset.range K).image g := by
      intro a ha
      rw [List.mem_toFinset] at ha
      obtain ⟨px, hpx, rfl⟩ := hsub a ha
      exact Finset.mem_image.mpr ⟨f px, Finset.mem_range.mpr (hbnd px hpx), rfl⟩
    calc (imgPixels (quantizedSmall cl image p n)).toFinset.card
        ≤ ((Finset.range K).image g).card := Finset.card_le_card hss
      _ ≤ (Finset.range K).card := Finset.card_image_le
      _ = K := Finset.card_range K
  have hcard2 : (imgPixels (quantizedSmall cl image p n)).toFinset.card ≤
      (imgPixels (downsampled image p)).toFinset.card := by
    have hss : (imgPixels (quantizedSmall cl image p n)).toFinset ⊆
        (imgPixels (downsampled image p)).toFinset.image (fun px => g (f px)) := by
      intro a ha
      rw [List.mem_toFinset] at ha
      obtain ⟨px, hpx, rfl⟩ := hsub a ha
      exact Finset.mem_image.mpr ⟨px, List.mem_toFinset.mpr hpx, rfl⟩
    calc (imgPixels (quantizedSmall cl image p n)).toFinset.card
        ≤ ((imgPixels (downsampled image p)).toFinset.image (fun px => g (f px))).card :=
          Finset.card_le_card hss
      _ ≤ (imgPixels (downsampled image p)).toFinset.card := Finset.card_image_le
  unfold distinctColors
  refine le_min ?_ ?_
  · calc ((imgPixels (quantizedSmall cl image p n)).toFinset.card : Int)
        ≤ (K : Int) := by exact_mod_cast hcard1
      _ ≤ n := hkn
  · exact_mod_cast hcard2

/-- A 1×1 single-pixel buffer used to witness C3. -/
def exDot : Img := ⟨1, 1, 3, fun _ _ => [10, 20, 30]⟩

/-- Witness for C3 at the 1×1 buffer with `pixel_size = 1`, `n_colors = 1`,
using the executable clustering model. -/
theorem distinct_colors_bound_witness :
    (distinctColors (quantizedSmall modelKMeans exDot 1 1) : Int) ≤
      min 1 (distinctColors (downsampled exDot 1) : Int) :=
  distinct_colors_bound modelKMeans exDot 1 1 (fun _ => 0) (by decide) (by decide)
    (by decide) (by decide) (by decide) (by decide)

/-! ### C9: n_colors clamping -/

/-- C9: `pixelate_image` is total in `n_colors`: for every integer
`n_colors` the quantization stage yields a well-formed buffer of the
downsampled dimensions; when `n_colors < 1` clustering is skipped entirely
and the smoothed downsampled colors are returned unchanged; and when
`n_colors` is at least the number of downsampled pixels the effective
cluster count is clamped to that pixel count. -/
theorem n_colors_clamped (cl : Clusterer) (image : Img) (p : Nat) (n : Int) (hp : 0 < p) :
    ((quantizedSmall cl image p n).h = (downsampled image p).h ∧
      (quantizedSmall cl image p n).w = (downsampled image p).w) ∧
    (n < 1 → quantizedSmall cl image p n = downsampled image p) ∧
    (((imgPixels (downsampled image p)).length : Int) ≤ n →
      effectiveNColors n (imgPixels (downsampled image p)).length
        = ((imgPixels (downsampled image p)).length : Int)) := by
  refine ⟨⟨?_, ?_⟩, ?_, ?_⟩
  · rw [quantizedSmall_h, downsampled_h]
  · rw [quantizedSmall_w, downsampled_w]
  · intro hn
    have : effectiveNColors n (imgPixels (downsampled image p)).length < 1 :=
      lt_of_le_of_lt (min_le_left _ _) hn
    unfold quantizedSmall
    rw [if_pos this]
  · intro hn
    exact min_eq_right hn

/-- Witness for C9 at a 2×2 buffer with `n_colors = -5`. -/
theorem n_colors_clamped_witness :
    ((quantizedSmall modelKMeans exBoard 2 (-5)).h = (downsampled exBoard 2).h ∧
      (quantizedSmall modelKMeans exBoard 2 (-5)).w = (downsampled exBoard 2).w) ∧
    ((-5 : Int) < 1 → quantizedSmall modelKMeans exBoard 2 (-5) = downsampled exBoard 2) ∧
    (((imgPixels (downsampled exBoard 2)).length : Int) ≤ -5 →
      effectiveNColors (-5) (imgPixels (downsampled exBoard 2)).length
        = ((imgPixels (downsampled exBoard 2)).length : Int)) :=
  n_colors_clamped modelKMeans exBoard 2 (-5) (by decide)

/-! ### The animated-image pipeline (`pixelate_gif_file`, `processing.py:60-97`) -/

/-- One decoded frame of an animated image: its pixel buffer and the
optional per-frame display duration from the container metadata
(`img.info.get('duration', 100)` reads `none` as 100 ms). -/
structure GifFrame where
  buffer : Img
  duration : Option Nat

/-- Models `PIL.Image.convert("RGBA")` on an RGB/RGBA source: the result
always has four channels; a missing alpha channel is filled with 255
(fully opaque). -/
def convertRGBA (img : Img) : Img :=
  { h := img.h, w := img.w, ch := 4,
    pix := fun y x => (img.pix y x).take 3 ++ [(img.pix y x).getD 3 255] }

/-- Swap the first and third channels of a pixel; models both
`cv2.COLOR_RGBA2BGRA` and `cv2.COLOR_BGRA2RGBA` (each is this involution
on the color channels, keeping alpha in place). -/
def swapRB (px : List Nat) : List Nat :=
  match px with
  | r :: g :: b :: rest => b :: g :: r :: rest
  | other => other

/-- Models `cv2.cvtColor(·, cv2.COLOR_RGBA2BGRA)` / `(·, cv2.COLOR_BGRA2RGBA)`. -/
def cvtSwapRB (img : Img) : Img :=
  { img with pix := fun y x => swapRB (img.pix y x) }

/-- The result of saving with PIL: a single still image (`save(path,'GIF')`,
one-frame branch) or an animated sequence saved with `save_all=True,
append_images=..., duration=durations, loop=..., disposal=...`
(`processing.py:89-97`). -/
inductive GifResult where
  | still (frame : Img)
  | animated (frames : List Img) (durations : List Nat) (loop : Nat) (disposal : Nat)

/-- Per-frame processing shared by both branches of `pixelate_gif_file`
(`processing.py:64-68` and `78-84`): convert to RGBA, reorder to BGRA,
quantize (with the default `n_colors = 16`), reorder back to RGBA. -/
def processGifFrame (cl : Clusterer) (p u : Nat) (img : Img) : Img :=
  cvtSwapRB (pixelate_image cl (cvtSwapRB (convertRGBA img)) p 16 u)

/-- Embedding of `pixelate_gif_file` (`processing.py:60-97`). The decoded
input is the ordered frame list; `is_animated` is the multi-frame test.
The multi-frame branch collects each frame's duration (default 100), the
processed frames in order, and saves with `loop=0` (loop forever) and
`disposal=2` (full redraw of every frame). -/
def pixelate_gif_file (cl : Clusterer) (input : List GifFrame) (p u : Nat) : GifResult :=
  if input.length ≤ 1 then
    GifResult.still (processGifFrame cl p u ((input.headD ⟨emptyImg, none⟩).buffer))
  else
    GifResult.animated (input.map fun fr => processGifFrame cl p u fr.buffer)
      (input.map fun fr => fr.duration.getD 100) 0 2

/-- The ordered frame list of a saved result. -/
def gifResultFrames : GifResult → List Img
  | GifResult.still f => [f]
  | GifResult.animated fs _ _ _ => fs

/-! ### C5: animated round-trip -/

/-- C5: for every multi-frame animated input with `k` frames,
`pixelate_gif_file` produces an animated output with exactly `k` frames,
obtained by processing the input frames in order, whose duration list is
the input durations with 100 ms substituted where the source omits one,
with loop count 0 (loop forever) and disposal mode 2 (full redraw) on the
saved sequence. -/
theorem gif_animated_roundtrip (cl : Clusterer) (input : List GifFrame) (p u : Nat)
    (hk : 2 ≤ input.length) :
    pixelate_gif_file cl input p u =
      GifResult.animated (input.map fun fr => processGifFrame cl p u fr.buffer)
        (input.map fun fr => fr.duration.getD 100) 0 2 ∧
    (input.map fun fr => processGifFrame cl p u fr.buffer).length = input.length ∧
    (input.map fun fr => fr.duration.getD 100).length = input.length := by
  refine ⟨?_, List.length_map _ _, List.length_map _ _⟩
  unfold pixelate_gif_file
  rw [if_neg (by omega)]

/-- A concrete two-frame animated input: a 2×2 gray frame with no recorded
duration and a 1×1 dark frame with a 40 ms duration. -/
def exAnim : List GifFrame :=
  [⟨⟨2, 2, 3, fun _ _ => [9, 9, 9]⟩, none⟩, ⟨⟨1, 1, 4, fun _ _ => [1, 2, 3, 4]⟩, some 40⟩]

/-- Witness for C5 on `exAnim`. -/
theorem gif_animated_roundtrip_witness :
    pixelate_gif_file modelKMeans exAnim 2 1 =
      GifResult.animated (exAnim.map fun fr => processGifFrame modelKMeans 2 1 fr.buffer)
        (exAnim.map fun fr => fr.duration.getD 100) 0 2 ∧
    (exAnim.map fun fr => processGifFrame modelKMeans 2 1 fr.buffer).length = exAnim.length ∧
    (exAnim.map fun fr => fr.duration.getD 100).length = exAnim.length :=
  gif_animated_roundtrip modelKMeans exAnim 2 1 (by decide)

/-! ### C10: every GIF output frame has alpha -/

/-- C10: in both branches of `pixelate_gif_file` every frame is converted
to a 4-channel RGBA representation before quantization, so for every input
— whether or not its frames carry alpha — every output frame has exactly 4
channels; the "output has alpha iff input has alpha" property of
`pixelate_image` does not lift to this pipeline. -/
theorem gif_frames_always_rgba (cl : Clusterer) (input : List GifFrame) (p u : Nat)
    (hp : 0 < p) :
    ((gifResultFrames (pixelate_gif_file cl input p u)).map Img.ch) =
      List.replicate ((gifResultFrames (pixelate_gif_file cl input p u)).map Img.ch).length 4 := by
  have hfr : ∀ img : Img, (processGifFrame cl p u img).ch = 4 := by
    intro img
    unfold processGifFrame cvtSwapRB
    show (pixelate_image cl _ p 16 u).ch = 4
    rw [pixelate_image_ch]
    rfl
  apply List.eq_replicate_of_mem
  intro c hc
  rw [List.mem_map] at hc
  obtain ⟨img, hmem, rfl⟩ := hc
  unfold pixelate_gif_file at hmem
  by_cases hlen : input.length ≤ 1
  · rw [if_pos hlen] at hmem
    unfold gifResultFrames at hmem
    rw [List.mem_singleton] at hmem
    rw [hmem]
    exact hfr _
  · rw [if_neg hlen] at hmem
    unfold gifResultFrames at hmem
    rw [List.mem_map] at hmem
    obtain ⟨fr, _, rfl⟩ := hmem
    exact hfr _

/-- Witness for C10 on `exAnim`, whose first frame has no alpha channel. -/
theorem gif_frames_always_rgba_witness :
    ((gifResultFrames (pixelate_gif_file modelKMeans exAnim 2 1)).map Img.ch) =
      List.replicate ((gifResultFrames (pixelate_gif_file modelKMeans exAnim 2 1)).map Img.ch).length 4 :=
  gif_frames_always_rgba modelKMeans exAnim 2 1 (by decide)

/-! ### The video pipeline (`pixelate_video_file`, `processing.py:99-141`) -/

/-- One stream entry of the ffmpeg probe result (`processing.py:102-107`):
its codec type and, for video streams, pixel dimensions and the
`r_frame_rate` rational, kept as its numerator/denominator pair as reported
by the container. -/
structure ProbeStream where
  codec_type : String
  width : Nat
  height : Nat
  rate_num : Nat
  rate_den : Nat

/-- Models Python float true division (`eval` of the probed
`"num/den"` frame-rate string at `processing.py:106`): the exact quotient
is rounded to a binary floating-point value, i.e. a dyadic rational;
modelled as round-to-nearest with 64 fractional bits. -/
def floatDiv64 (a b : Nat) : ℚ :=
  (((a : ℚ) / (b : ℚ) * 2 ^ 64 + 1 / 2).floor : ℚ) / 2 ^ 64

/-- A rational is dyadic when it is an integer divided by a power of two —
exactly the (finite) values a binary floating-point number can take. -/
def IsDyadic (q : ℚ) : Prop := ∃ m : ℤ, ∃ e : Nat, q = (m : ℚ) / 2 ^ e

/-- The configuration handed to the external encoder process
(`processing.py:109-125`): scaled output dimensions, the raw-input frame
rate `r`, and whether an audio stream of the source is muxed in. -/
structure EncoderConfig where
  width : Nat
  height : Nat
  rate : ℚ
  hasAudio : Bool

/-- Lines 103-114 of `processing.py`: select the first video stream of the
probe result (`next(...)` raises `StopIteration`, modelled as `none`, when
there is none), read its dimensions, evaluate its frame rate with float
division, scale the dimensions by `upscale_factor` and detect audio. -/
def probedEncoderConfig (streams : List ProbeStream) (u : Nat) : Option EncoderConfig :=
  (streams.find? (fun s => s.codec_type == "video")).map (fun vi =>
    { width := vi.width * u, height := vi.height * u,
      rate := floatDiv64 vi.rate_num vi.rate_den,
      hasAudio := streams.any (fun s => s.codec_type == "audio") })

/-- The error type of the video pipeline: `processing.py:141` re-raises any
exception as a single `RuntimeError` — the spec's `VideoProcessingError` —
whose message carries the underlying cause. -/
inductive VideoError where
  | videoProcessingError (cause : String)
  deriving DecidableEq

/-- Outcomes of the external steps of the video pipeline: the probe result,
the encoder launch, the frames the decoder yields before reporting
end-of-stream, the per-frame pipe write, and the final
close/wait/release. Each fallible step carries the message of the Python
exception it raises on failure. -/
structure VideoOps where
  probe : Except String (List ProbeStream)
  launch : EncoderConfig → Except String Unit
  frames : List Img
  write : Img → Except String Unit
  closeWait : Except String Unit

/-- The `try` body of `pixelate_video_file` (`processing.py:101-138`):
probe, configure and launch the encoder, decode frames in order, quantize
each (default `n_colors = 16`) and write it to the encoder's input stream,
then close and wait. Returns the processed frames written, in order. -/
def videoBody (cl : Clusterer) (ops : VideoOps) (p u : Nat) : Except String (List Img) := do
  let streams ← ops.probe
  match probedEncoderConfig streams u with
  | none => Except.error "StopIteration"
  | some cfg =>
    let _ ← ops.launch cfg
    let outFrames := ops.frames.map (fun f => pixelate_image cl f p 16 u)
    let _ ← outFrames.forM ops.write
    let _ ← ops.closeWait
    pure outFrames

/-- Embedding of `pixelate_video_file` (`processing.py:99-141`): the whole
body runs inside `try ... except Exception as e: raise RuntimeError(...)`,
so any failure is re-raised as a single wrapping error. -/
def pixelate_video_file (cl : Clusterer) (ops : VideoOps) (p u : Nat) :
    Except VideoError (List Img) :=
  match videoBody cl ops p u with
  | Except.ok r => Except.ok r
  | Except.error e => Except.error (VideoError.videoProcessingError e)

/-! ### C6: single wrapped terminal error -/

/-- C6: every invocation of `pixelate_video_file` either succeeds with the
result of its body, or fails with exactly one terminal error, which is the
`VideoProcessingError` wrapper carrying the underlying cause: any exception
raised while probing, launching, decoding or writing is re-raised as that
single error and never silently dropped. -/
theorem video_error_wrap (cl : Clusterer) (ops : VideoOps) (p u : Nat) :
    (∀ r, videoBody cl ops p u = Except.ok r →
      pixelate_video_file cl ops p u = Except.ok r) ∧
    (∀ e, videoBody cl ops p u = Except.error e →
      pixelate_video_file cl ops p u = Except.error (VideoError.videoProcessingError e)) := by
  constructor
  · intro r hr
    unfold pixelate_video_file
    rw [hr]
  · intro e he
    unfold pixelate_video_file
    rw [he]

/-- A video-pipeline environment whose probe step fails. -/
def failOps : VideoOps :=
  { probe := Except.error "probe failed"
    launch := fun _ => Except.ok ()
    frames := []
    write := fun _ => Except.ok ()
    closeWait := Except.ok () }

/-- Witness for C6: a failing probe surfaces as the single wrapped
`VideoProcessingError` carrying the cause. -/
theorem video_error_wrap_witness :
    pixelate_video_file modelKMeans failOps 4 1 =
      Except.error (VideoError.videoProcessingError "probe failed") :=
  (video_error_wrap modelKMeans failOps 4 1).2 "probe failed" rfl

/-! ### C7: frame rate is a float, not an exact rational -/

/-- Helper for the C7 counterexample: no dyadic rational equals
`30000/1001` (the NTSC rate), since `1001 = 7·11·13` is odd and coprime to
`30000`. -/
theorem not_dyadic_ntsc (m : ℤ) (e : Nat) : (m : ℚ) / 2 ^ e ≠ (30000 : ℚ) / 1001 := by
  intro heq
  rw [div_eq_div_iff (by positivity) (by norm_num)] at heq
  have hz : m * 1001 = 30000 * 2 ^ e := by exact_mod_cast heq
  have hdvd : (1001 : ℕ) ∣ 30000 * 2 ^ e := by
    have hzdvd : (1001 : ℤ) ∣ ((30000 * 2 ^ e : ℕ) : ℤ) := ⟨m, by push_cast; linarith⟩
    exact_mod_cast hzdvd
  have hco : Nat.Coprime 1001 30000 := by decide
  have h1 : (1001 : ℕ) ∣ 2 ^ e := hco.dvd_of_dvd_mul_left hdvd
  have hco2 : Nat.Coprime 1001 (2 ^ e) := Nat.Coprime.pow_right e (by decide)
  have hone : (1001 : ℕ) = 1 := by rw [← Nat.gcd_eq_left h1]; exact hco2
  omega

/-- Written from the spec's words, for comparison with the code: "the frame
rate as an exact rational, not a float" — the probed `num/den` value as an
exact rational number. -/
def exactRationalRate (s : ProbeStream) : ℚ := (s.rate_num : ℚ) / (s.rate_den : ℚ)

/-- C7 counterexample: for a source whose probed `r_frame_rate` is
`30000/1001` (NTSC 29.97 fps), the frame rate the code computes — Python
float division of the numerator by the denominator (`eval` at
`processing.py:106`) — is **not** the exact rational `30000/1001`: the code
holds a binary floating-point approximation, so the claim that the rate is
obtained "as an exact rational number, not a float" fails. -/
theorem fps_not_exact_rational :
    floatDiv64 30000 1001 ≠ exactRationalRate ⟨"video", 320, 200, 30000, 1001⟩ := by
  unfold floatDiv64 exactRationalRate
  norm_num
  exact not_dyadic_ntsc _ 64

/-- Every value of the float-division model is dyadic: some integer over a
power of two. -/
theorem floatDiv64_isDyadic (a b : Nat) : IsDyadic (floatDiv64 a b) := by
  refine ⟨((a : ℚ) / (b : ℚ) * 2 ^ 64 + 1 / 2).floor, 64, ?_⟩
  unfold floatDiv64
  rfl

/-- C7 (amended): the video pipeline obtains the frame rate by evaluating
the probed `num/den` string with Python float (true) division, yielding a
dyadic-rational binary floating-point approximation of the exact rate, and
passes exactly that float value to the encoder as its raw-input frame
rate. (It need not equal the exact rational rate — see the
counterexample.) -/
theorem fps_dyadic_approx (streams : List ProbeStream) (s : ProbeStream) (u : Nat)
    (hs : streams.find? (fun t => t.codec_type == "video") = some s) :
    (probedEncoderConfig streams u).map EncoderConfig.rate =
      some (floatDiv64 s.rate_num s.rate_den) ∧
    IsDyadic (floatDiv64 s.rate_num s.rate_den) := by
  constructor
  · simp [probedEncoderConfig, hs]
  · exact floatDiv64_isDyadic _ _

/-- A probe result with one NTSC-rate video stream and one audio stream. -/
def exStreams : List ProbeStream :=
  [⟨"video", 320, 200, 30000, 1001⟩, ⟨"audio", 0, 0, 0, 0⟩]

/-- Witness for the amended C7 on `exStreams` with `upscale_factor = 2`. -/
theorem fps_dyadic_approx_witness :
    (probedEncoderConfig exStreams 2).map EncoderConfig.rate =
      some (floatDiv64 30000 1001) ∧
    IsDyadic (floatDiv64 30000 1001) :=
  fps_dyadic_approx exStreams ⟨"video", 320, 200, 30000, 1001⟩ 2 rfl

end PixelateAll
